import Mathlib

/-!
Verification of `include/nanobind/stl/bind_map.h` (`nanobind::bind_map`).

The adapter binds a native associative container (template parameter `Map`,
keys unique, native iteration order) to a foreign dynamic runtime.  We embed
the container as an association list `List (K × V)` whose order is the
container's native iteration order, and each bound operation as the Lean
function obtained by translating the lambda from the source, delegating to
the container operations (`find`, `size`, `empty`, `erase`, `emplace`,
`operator[]`, `begin`/`end`).
-/

set_option autoImplicit false

namespace BindMap

variable {K V : Type} [DecidableEq K]

/-- Container operation `m.find(k)` followed by dereference: the first entry
whose key is `k`, if any (`none` plays the role of `m.end()`). -/
def findEntry : List (K × V) → K → Option V
  | [], _ => none
  | (k', v) :: t, k => if k' = k then some v else findEntry t k

/-- `m.find(k) != m.end()`. -/
def containsKey (m : List (K × V)) (k : K) : Bool :=
  (findEntry m k).isSome

/-- Container operation `m.erase(it)` where `it = m.find(k)` landed on an
entry: removes the first entry whose key is `k`. -/
def eraseKey : List (K × V) → K → List (K × V)
  | [], _ => []
  | (k', v) :: t, k => if k' = k then t else (k', v) :: eraseKey t k

/-- Container operation `m.emplace(k, v)`: inserts a fresh entry only when the
key is absent; returns the updated container and the `.second` flag of the
result (`true` iff an insertion happened). -/
def emplaceEntry (m : List (K × V)) (k : K) (v : V) : List (K × V) × Bool :=
  if containsKey m k then (m, false) else (m ++ [(k, v)], true)

/-- Container operation `m[k] = v` (`operator[]` then copy assignment):
overwrites the value of the existing entry in place, or inserts a new entry
when the key is absent. -/
def assignEntry : List (K × V) → K → V → List (K × V)
  | [], k, v => [(k, v)]
  | (k', v') :: t, k, v => if k' = k then (k, v) :: t else (k', v') :: assignEntry t k v

/-- The container's key-uniqueness invariant: entry keys are pairwise
distinct. -/
def WF (m : List (K × V)) : Prop :=
  (m.map Prod.fst).Nodup

instance (m : List (K × V)) : Decidable (WF m) := by
  unfold WF; infer_instance

/-- A value the foreign runtime can pass where a key is expected: either it
converts to the native key type `K`, or it is of some other, incompatible
type. -/
inductive PyValue (K : Type) where
  | key : K → PyValue K
  | foreign : PyValue K
  deriving DecidableEq

/-- The only error this adapter raises: `nb::key_error` (`KeyNotFound`). -/
inductive MapError where
  | key_error
  deriving DecidableEq

/-- `__len__`: delegates to `Map::size`. -/
def map_len (m : List (K × V)) : Nat :=
  m.length

/-- `__bool__`: `!m.empty()`. -/
def map_bool (m : List (K × V)) : Bool :=
  !m.isEmpty

/-- Typed `__contains__` overload: `m.find(k) != m.end()`. -/
def map_contains_typed (m : List (K × V)) (k : K) : Bool :=
  containsKey m k

/-- Fallback `__contains__` overload for incompatible key types: always
`false`. -/
def map_contains_fallback (_ : List (K × V)) : Bool :=
  false

/-- The two-overload `__contains__` surface as the runtime dispatches it: the
typed overload fires when the argument converts to `K`, otherwise overload
resolution falls through to the `handle` fallback. -/
def map_contains (m : List (K × V)) : PyValue K → Bool
  | .key k => map_contains_typed m k
  | .foreign => map_contains_fallback m

/-- `__getitem__`: `find`, throw `key_error` at `end`, otherwise return a
reference to `it->second`. -/
def map_getitem (m : List (K × V)) (k : K) : Except MapError V :=
  match findEntry m k with
  | none => .error .key_error
  | some v => .ok v

/-- `__delitem__`: `find`, throw `key_error` at `end`, otherwise
`m.erase(it)`.  Returned as (raised error?, container afterwards); on the
error path the throw happens before any mutation, so the container is
returned untouched. -/
def map_delitem (m : List (K × V)) (k : K) : Option MapError × List (K × V) :=
  match findEntry m k with
  | none => (some .key_error, m)
  | some _ => (none, eraseKey m k)

/-- `__setitem__`, assign-in-place strategy (`is_copy_assignable_v<Value>`):
`m[k] = v`. -/
def map_setitem_assign (m : List (K × V)) (k : K) (v : V) : List (K × V) :=
  assignEntry m k v

/-- `__setitem__`, erase-and-reconstruct strategy (`Value` copy-constructible
but not copy-assignable): `auto r = m.emplace(k, v); if (!r.second)
{ m.erase(r.first); m.emplace(k, v); }`. -/
def map_setitem_emplace (m : List (K × V)) (k : K) (v : V) : List (K × V) :=
  let r := emplaceEntry m k v
  if r.2 then r.1 else (emplaceEntry (eraseKey r.1 k) k v).1

/-- `__iter__` on the map: `make_key_iterator(m.begin(), m.end())`, the lazy
sequence of keys in native order. -/
def map_iter_keys (m : List (K × V)) : List K :=
  m.map Prod.fst

/-- `KeyView.__iter__`: `make_key_iterator(v.map.begin(), v.map.end())`. -/
def keyview_seq (m : List (K × V)) : List K :=
  m.map Prod.fst

/-- `ValueView.__iter__`: `make_value_iterator(v.map.begin(), v.map.end())`. -/
def valueview_seq (m : List (K × V)) : List V :=
  m.map Prod.snd

/-- `ItemView.__iter__`: `make_iterator(v.map.begin(), v.map.end())`, the
sequence of (key, value) entries in native order. -/
def itemview_seq (m : List (K × V)) : List (K × V) :=
  m

/-! ### Basic lemmas about the container operations -/

theorem findEntry_isSome_iff (m : List (K × V)) (k : K) :
    (findEntry m k).isSome = true ↔ ∃ v, (k, v) ∈ m := by
  induction m with
  | nil => simp [findEntry]
  | cons p t ih =>
    obtain ⟨k', v'⟩ := p
    by_cases h : k' = k
    · subst h
      simp [findEntry]
    · simp only [findEntry, if_neg h, ih, List.mem_cons]
      constructor
      · rintro ⟨v, hv⟩
        exact ⟨v, Or.inr hv⟩
      · rintro ⟨v, hv | hv⟩
        · cases hv
          exact absurd rfl h
        · exact ⟨v, hv⟩

theorem containsKey_iff_mem_keys (m : List (K × V)) (k : K) :
    containsKey m k = true ↔ k ∈ m.map Prod.fst := by
  rw [containsKey, findEntry_isSome_iff]
  constructor
  · rintro ⟨v, hv⟩
    exact List.mem_map.mpr ⟨(k, v), hv, rfl⟩
  · intro h
    obtain ⟨⟨k', v⟩, hmem, hk⟩ := List.mem_map.mp h
    cases hk
    exact ⟨v, hmem⟩

theorem findEntry_eq_none_iff (m : List (K × V)) (k : K) :
    findEntry m k = none ↔ k ∉ m.map Prod.fst := by
  rw [← containsKey_iff_mem_keys]
  unfold containsKey
  cases findEntry m k <;> simp

theorem findEntry_assign_self (m : List (K × V)) (k : K) (v : V) :
    findEntry (assignEntry m k v) k = some v := by
  induction m with
  | nil => simp [assignEntry, findEntry]
  | cons p t ih =>
    obtain ⟨k', v'⟩ := p
    by_cases h : k' = k
    · simp [assignEntry, h, findEntry]
    · simp [assignEntry, h, findEntry, ih]

theorem findEntry_assign_ne (m : List (K × V)) (k k' : K) (v : V) (h : k' ≠ k) :
    findEntry (assignEntry m k v) k' = findEntry m k' := by
  induction m with
  | nil => simp [assignEntry, findEntry, Ne.symm h]
  | cons p t ih =>
    obtain ⟨k₀, v₀⟩ := p
    by_cases h₀ : k₀ = k
    · subst h₀
      simp [assignEntry, findEntry, Ne.symm h]
    · simp [assignEntry, h₀, findEntry, ih]

theorem keys_assign (m : List (K × V)) (k : K) (v : V) :
    (assignEntry m k v).map Prod.fst =
      if containsKey m k then m.map Prod.fst else m.map Prod.fst ++ [k] := by
  induction m with
  | nil => simp [assignEntry, containsKey, findEntry]
  | cons p t ih =>
    obtain ⟨k', v'⟩ := p
    by_cases h : k' = k
    · subst h
      simp [assignEntry, containsKey, findEntry]
    · simp only [assignEntry, if_neg h, List.map_cons, ih, containsKey, findEntry]
      by_cases hc : containsKey t k
      · simp [containsKey] at hc
        simp [h, hc]
      · simp [containsKey] at hc
        simp [h, hc]

theorem length_assign (m : List (K × V)) (k : K) (v : V) :
    (assignEntry m k v).length =
      if containsKey m k then m.length else m.length + 1 := by
  have h := congrArg List.length (keys_assign m k v)
  simp only [List.length_map] at h
  rw [h]
  by_cases hc : containsKey m k <;> simp [hc]

theorem findEntry_eraseKey_ne (m : List (K × V)) (k k' : K) (h : k' ≠ k) :
    findEntry (eraseKey m k) k' = findEntry m k' := by
  induction m with
  | nil => simp [eraseKey]
  | cons p t ih =>
    obtain ⟨k₀, v₀⟩ := p
    by_cases h₀ : k₀ = k
    · subst h₀
      simp [eraseKey, findEntry, Ne.symm h]
    · simp [eraseKey, h₀, findEntry, ih]

theorem keys_eraseKey_sublist (m : List (K × V)) (k : K) :
    ((eraseKey m k).map Prod.fst).Sublist (m.map Prod.fst) := by
  induction m with
  | nil => simp [eraseKey]
  | cons p t ih =>
    obtain ⟨k₀, v₀⟩ := p
    by_cases h₀ : k₀ = k
    · simp only [eraseKey, if_pos h₀, List.map_cons]
      exact (List.sublist_cons_self _ _)
    · simp only [eraseKey, if_neg h₀, List.map_cons]
      exact ih.cons₂ _

theorem findEntry_eraseKey_self (m : List (K × V)) (k : K) (hwf : WF m) :
    findEntry (eraseKey m k) k = none := by
  induction m with
  | nil => simp [eraseKey, findEntry]
  | cons p t ih =>
    obtain ⟨k₀, v₀⟩ := p
    have hwf' : WF t := (List.nodup_cons.mp hwf).2
    by_cases h₀ : k₀ = k
    · subst h₀
      simp only [eraseKey, if_pos rfl]
      have hnot : k₀ ∉ t.map Prod.fst := (List.nodup_cons.mp hwf).1
      exact (findEntry_eq_none_iff t k₀).mpr hnot
    · simp [eraseKey, h₀, findEntry, ih hwf']

theorem length_eraseKey (m : List (K × V)) (k : K) (h : containsKey m k = true) :
    (eraseKey m k).length + 1 = m.length := by
  induction m with
  | nil => simp [containsKey, findEntry] at h
  | cons p t ih =>
    obtain ⟨k₀, v₀⟩ := p
    by_cases h₀ : k₀ = k
    · simp [eraseKey, h₀]
    · simp only [containsKey, findEntry, if_neg h₀] at h
      simp [eraseKey, h₀, ih h]

theorem findEntry_append (m l : List (K × V)) (k : K) :
    findEntry (m ++ l) k =
      match findEntry m k with
      | some v => some v
      | none => findEntry l k := by
  induction m with
  | nil => simp [findEntry]
  | cons p t ih =>
    obtain ⟨k₀, v₀⟩ := p
    by_cases h₀ : k₀ = k
    · simp [findEntry, h₀]
    · simp [findEntry, h₀, ih]

theorem containsKey_eraseKey_self (m : List (K × V)) (k : K) (hwf : WF m) :
    containsKey (eraseKey m k) k = false := by
  unfold containsKey
  rw [findEntry_eraseKey_self m k hwf]
  rfl

/-- Unfolding of the erase-and-reconstruct `__setitem__` on a well-formed
container: overwriting moves the entry through an erase followed by a fresh
`emplace`; inserting appends a fresh entry. -/
theorem setitem_emplace_eq (m : List (K × V)) (k : K) (v : V) (hwf : WF m) :
    map_setitem_emplace m k v =
      if containsKey m k then eraseKey m k ++ [(k, v)] else m ++ [(k, v)] := by
  unfold map_setitem_emplace emplaceEntry
  by_cases hc : containsKey m k
  · simp only [hc, if_true, if_false]
    rw [containsKey_eraseKey_self m k hwf]
    simp
  · simp [hc]

/-! ### Preservation of the key-uniqueness invariant -/

omit [DecidableEq K] in
theorem WF_nil : WF ([] : List (K × V)) := by
  simp [WF]

theorem WF_assign (m : List (K × V)) (k : K) (v : V) (hwf : WF m) :
    WF (assignEntry m k v) := by
  unfold WF
  rw [keys_assign]
  by_cases hc : containsKey m k
  · simpa [hc] using hwf
  · rw [if_neg hc, List.nodup_append]
    refine ⟨hwf, List.nodup_singleton k, ?_⟩
    intro a ha hb
    simp only [List.mem_singleton] at hb
    rw [hb] at ha
    exact absurd ((containsKey_iff_mem_keys m k).mpr ha) (by simp [hc])

theorem WF_eraseKey (m : List (K × V)) (k : K) (hwf : WF m) :
    WF (eraseKey m k) :=
  (keys_eraseKey_sublist m k).nodup hwf

theorem WF_setitem_emplace (m : List (K × V)) (k : K) (v : V) (hwf : WF m) :
    WF (map_setitem_emplace m k v) := by
  rw [setitem_emplace_eq m k v hwf]
  by_cases hc : containsKey m k
  · rw [if_pos hc]
    unfold WF
    rw [List.map_append, List.nodup_append]
    refine ⟨WF_eraseKey m k hwf, by simp, ?_⟩
    intro a ha hb
    simp only [List.map_cons, List.map_nil, List.mem_singleton] at hb
    rw [hb] at ha
    exact (findEntry_eq_none_iff (eraseKey m k) k).mp (findEntry_eraseKey_self m k hwf) ha
  · rw [if_neg hc]
    unfold WF
    rw [List.map_append, List.nodup_append]
    refine ⟨hwf, by simp, ?_⟩
    intro a ha hb
    simp only [List.map_cons, List.map_nil, List.mem_singleton] at hb
    rw [hb] at ha
    exact absurd ((containsKey_iff_mem_keys m k).mpr ha) (by simp [hc])

theorem WF_delitem (m : List (K × V)) (k : K) (hwf : WF m) :
    WF (map_delitem m k).2 := by
  unfold map_delitem
  cases h : findEntry m k
  · simpa using hwf
  · simpa using WF_eraseKey m k hwf

/-- The states of a map object reachable through the bound surface: it is
constructed empty (`init<>()`) and mutated only by `__setitem__` (either
strategy) and `__delitem__`. -/
inductive Reachable : List (K × V) → Prop where
  | init : Reachable []
  | set_assign (m : List (K × V)) (k : K) (v : V) :
      Reachable m → Reachable (map_setitem_assign m k v)
  | set_emplace (m : List (K × V)) (k : K) (v : V) :
      Reachable m → Reachable (map_setitem_emplace m k v)
  | del (m : List (K × V)) (k : K) :
      Reachable m → Reachable (map_delitem m k).2

/-- Every reachable map state satisfies the container's key-uniqueness
invariant. -/
theorem reachable_WF (m : List (K × V)) (h : Reachable m) : WF m := by
  induction h with
  | init => exact WF_nil
  | set_assign m k v _ ih => exact WF_assign m k v ih
  | set_emplace m k v _ ih => exact WF_setitem_emplace m k v ih
  | del m k _ ih => exact WF_delitem m k ih

theorem containsKey_eq_false_iff (m : List (K × V)) (k : K) :
    containsKey m k = false ↔ findEntry m k = none := by
  unfold containsKey
  cases findEntry m k <;> simp

theorem findEntry_append_singleton_ne (l : List (K × V)) (k k' : K) (v : V)
    (h : k' ≠ k) :
    findEntry (l ++ [(k, v)]) k' = findEntry l k' := by
  rw [findEntry_append]
  cases findEntry l k'
  · simp [findEntry, Ne.symm h]
  · rfl

theorem findEntry_setitem_emplace_self (m : List (K × V)) (k : K) (v : V)
    (hwf : WF m) :
    findEntry (map_setitem_emplace m k v) k = some v := by
  rw [setitem_emplace_eq m k v hwf]
  by_cases hc : containsKey m k
  · rw [if_pos hc, findEntry_append, findEntry_eraseKey_self m k hwf]
    simp [findEntry]
  · rw [if_neg hc, findEntry_append, (containsKey_eq_false_iff m k).mp (by simpa using hc)]
    simp [findEntry]

theorem len_setitem_emplace (m : List (K × V)) (k : K) (v : V) (hwf : WF m) :
    (map_setitem_emplace m k v).length =
      if containsKey m k then m.length else m.length + 1 := by
  rw [setitem_emplace_eq m k v hwf]
  by_cases hc : containsKey m k
  · rw [if_pos hc, if_pos hc, List.length_append]
    simpa using length_eraseKey m k hc
  · rw [if_neg hc, if_neg hc, List.length_append]
    rfl

theorem countP_keys_zero (l : List (K × V)) (k : K) (h : findEntry l k = none) :
    l.countP (fun p => decide (p.1 = k)) = 0 := by
  induction l with
  | nil => rfl
  | cons p t ih =>
    obtain ⟨k₀, v₀⟩ := p
    simp only [findEntry] at h
    by_cases h₀ : k₀ = k
    · rw [if_pos h₀] at h
      exact absurd h (by simp)
    · rw [if_neg h₀] at h
      rw [List.countP_cons]
      simp [h₀, ih h]

/-! ### Views as live references

`KeyView`/`ValueView`/`ItemView` hold a `Map &map` back-reference, not a
copy.  We model the heap of map objects as a store indexed by object
identity; a view stores the identity of its map, and every view operation
dereferences the store at call time — exactly what `v.map.size()` /
`v.map.begin()` do in the source. -/

/-- The heap of live map objects, indexed by object identity. -/
def Store (K V : Type) := Nat → List (K × V)

/-- `struct KeyView { Map &map; }` — the reference is the identity of the
referenced map object. -/
structure KeyView where
  map : Nat

/-- `struct ValueView { Map &map; }`. -/
structure ValueView where
  map : Nat

/-- `struct ItemView { Map &map; }`. -/
structure ItemView where
  map : Nat

/-- `KeyView.__len__`: `v.map.size()`, read through the reference at call
time. -/
def keyview_len (σ : Store K V) (w : KeyView) : Nat :=
  map_len (σ w.map)

/-- `KeyView.__iter__` through the reference at call time. -/
def keyview_iter (σ : Store K V) (w : KeyView) : List K :=
  keyview_seq (σ w.map)

/-- `ValueView.__len__`. -/
def valueview_len (σ : Store K V) (w : ValueView) : Nat :=
  map_len (σ w.map)

/-- `ValueView.__iter__` through the reference at call time. -/
def valueview_iter (σ : Store K V) (w : ValueView) : List V :=
  valueview_seq (σ w.map)

/-- `ItemView.__len__`. -/
def itemview_len (σ : Store K V) (w : ItemView) : Nat :=
  map_len (σ w.map)

/-- `ItemView.__iter__` through the reference at call time. -/
def itemview_iter (σ : Store K V) (w : ItemView) : List (K × V) :=
  itemview_seq (σ w.map)

/-- `KeyView.__contains__`, both overloads, dispatched like
`Map.__contains__`; the typed overload is `v.map.find(k) != v.map.end()`
through the reference. -/
def keyview_contains (σ : Store K V) (w : KeyView) : PyValue K → Bool
  | .key k => containsKey (σ w.map) k
  | .foreign => false

/-- `keys()`: `new KeyView{m}` — a fresh view object referencing `m`. -/
def map_keys_view (i : Nat) : KeyView :=
  ⟨i⟩

/-- `values()`: `new ValueView{m}`. -/
def map_values_view (i : Nat) : ValueView :=
  ⟨i⟩

/-- `items()`: `new ItemView{m}`. -/
def map_items_view (i : Nat) : ItemView :=
  ⟨i⟩

/-- `M[k] = v` performed on the map object `i` of the store: only that
object mutates. -/
def store_setitem_assign (σ : Store K V) (i : Nat) (k : K) (v : V) : Store K V :=
  fun j => if j = i then map_setitem_assign (σ j) k v else σ j

/-- `del M[k]` performed on the map object `i` of the store. -/
def store_delitem (σ : Store K V) (i : Nat) (k : K) : Store K V :=
  fun j => if j = i then (map_delitem (σ j) k).2 else σ j

/-! ### The registration table

`bind_map` attaches each operation to the foreign type with a list of call
policies; `keep_alive<0, 1>` ties the lifetime of the returned object
(index 0) to the `self` argument (index 1).  The table below transcribes
every `.def(...)` call of the source together with the policies passed. -/

/-- A binding-time call policy annotation. -/
inductive CallPolicy where
  | keep_alive : Nat → Nat → CallPolicy
  | rv_reference_internal
  deriving DecidableEq

/-- One `.def(name, fn, policies...)` registration. -/
structure Binding where
  cls : String
  name : String
  policies : List CallPolicy
  deriving DecidableEq

/-- Every registration `bind_map` performs, in source order. -/
def bind_map_bindings : List Binding :=
  [⟨"Map", "__init__", []⟩,
   ⟨"Map", "__len__", []⟩,
   ⟨"Map", "__bool__", []⟩,
   ⟨"Map", "__contains__", []⟩,
   ⟨"Map", "__contains__", []⟩,
   ⟨"Map", "__iter__", [.keep_alive 0 1]⟩,
   ⟨"Map", "__getitem__", [.rv_reference_internal]⟩,
   ⟨"Map", "__delitem__", []⟩,
   ⟨"Map", "__setitem__", []⟩,
   ⟨"ItemView", "__len__", []⟩,
   ⟨"ItemView", "__iter__", [.keep_alive 0 1]⟩,
   ⟨"KeyView", "__contains__", []⟩,
   ⟨"KeyView", "__contains__", []⟩,
   ⟨"KeyView", "__len__", []⟩,
   ⟨"KeyView", "__iter__", [.keep_alive 0 1]⟩,
   ⟨"ValueView", "__len__", []⟩,
   ⟨"ValueView", "__iter__", [.keep_alive 0 1]⟩,
   ⟨"Map", "keys", [.keep_alive 0 1]⟩,
   ⟨"Map", "values", [.keep_alive 0 1]⟩,
   ⟨"Map", "items", [.keep_alive 0 1]⟩]

/-! ### The claims -/

/-- C1: `__contains__` is a total predicate.  For every map and every value
the runtime can pass: a value of the native key type tests `true` exactly
when an entry with that key exists, and any value of a different type lands
in the fallback overload and yields `false` instead of a type error;
`KeyView.__contains__` obeys the identical contract. -/
theorem C1_contains_total (m : List (K × V)) (σ : Store K V) (w : KeyView) (k : K) :
    (map_contains m (PyValue.key k) = true ↔ ∃ v, (k, v) ∈ m) ∧
    map_contains m PyValue.foreign = false ∧
    (keyview_contains σ w (PyValue.key k) = true ↔ ∃ v, (k, v) ∈ σ w.map) ∧
    keyview_contains σ w PyValue.foreign = false :=
  ⟨findEntry_isSome_iff m k, rfl, findEntry_isSome_iff (σ w.map) k, rfl⟩

/-- C3: on a key of the native type that is absent, `__getitem__` raises
`key_error` and `__delitem__` raises `key_error`, and in both error cases
the map is returned exactly as it was — the throw happens before any
mutation, and the error is surfaced, not recovered. -/
theorem C3_absent_key_errors (m : List (K × V)) (k : K)
    (habs : findEntry m k = none) :
    map_getitem m k = Except.error MapError.key_error ∧
    map_delitem m k = (some MapError.key_error, m) := by
  constructor
  · unfold map_getitem
    rw [habs]
  · unfold map_delitem
    rw [habs]

theorem C3_absent_key_errors_witness :
    map_getitem [((1 : Nat), (10 : Nat))] 2 = Except.error MapError.key_error ∧
    map_delitem [((1 : Nat), (10 : Nat))] 2 = (some MapError.key_error, [(1, 10)]) :=
  C3_absent_key_errors [(1, 10)] 2 (by decide)

omit [DecidableEq K] in
/-- C7: in every state of the map (in particular every reachable one),
`__bool__` agrees with `__len__ > 0`. -/
theorem C7_bool_iff_len_pos (m : List (K × V)) :
    map_bool m = decide (0 < map_len m) := by
  cases m <;> simp [map_bool, map_len]

/-- C9: `__setitem__` (either strategy) and `__delitem__` touch at most the
entry with the given key: for any other key, membership and the value
observed through `__getitem__` are identical before and after the call. -/
theorem C9_frame (m : List (K × V)) (k k' : K) (v : V) (hne : k' ≠ k) :
    map_getitem (map_setitem_assign m k v) k' = map_getitem m k' ∧
    map_contains (map_setitem_assign m k v) (PyValue.key k') =
      map_contains m (PyValue.key k') ∧
    map_getitem (map_setitem_emplace m k v) k' = map_getitem m k' ∧
    map_contains (map_setitem_emplace m k v) (PyValue.key k') =
      map_contains m (PyValue.key k') ∧
    map_getitem (map_delitem m k).2 k' = map_getitem m k' ∧
    map_contains (map_delitem m k).2 (PyValue.key k') =
      map_contains m (PyValue.key k') := by
  have hassign : findEntry (map_setitem_assign m k v) k' = findEntry m k' :=
    findEntry_assign_ne m k k' v hne
  have hemplace : findEntry (map_setitem_emplace m k v) k' = findEntry m k' := by
    unfold map_setitem_emplace emplaceEntry
    by_cases hc : containsKey m k
    · by_cases hc' : containsKey (eraseKey m k) k
      · simp [hc, hc', findEntry_eraseKey_ne m k k' hne]
      · simp [hc, hc', findEntry_append_singleton_ne (eraseKey m k) k k' v hne,
          findEntry_eraseKey_ne m k k' hne]
    · simp [hc, findEntry_append_singleton_ne m k k' v hne]
  have hdel : findEntry (map_delitem m k).2 k' = findEntry m k' := by
    unfold map_delitem
    cases h : findEntry m k
    · rfl
    · exact findEntry_eraseKey_ne m k k' hne
  refine ⟨?_, ?_, ?_, ?_, ?_, ?_⟩ <;>
    simp [map_getitem, map_contains, map_contains_typed, containsKey,
      hassign, hemplace, hdel]

theorem C9_frame_witness :
    map_getitem (map_setitem_assign [((1 : Nat), (10 : Nat))] 2 20) 1 =
      map_getitem [(1, 10)] 1 ∧
    map_contains (map_setitem_assign [((1 : Nat), (10 : Nat))] 2 20)
      (PyValue.key 1) = map_contains [(1, 10)] (PyValue.key 1) ∧
    map_getitem (map_setitem_emplace [((1 : Nat), (10 : Nat))] 2 20) 1 =
      map_getitem [(1, 10)] 1 ∧
    map_contains (map_setitem_emplace [((1 : Nat), (10 : Nat))] 2 20)
      (PyValue.key 1) = map_contains [(1, 10)] (PyValue.key 1) ∧
    map_getitem (map_delitem [((1 : Nat), (10 : Nat))] 2).2 1 =
      map_getitem [(1, 10)] 1 ∧
    map_contains (map_delitem [((1 : Nat), (10 : Nat))] 2).2 (PyValue.key 1) =
      map_contains [(1, 10)] (PyValue.key 1) :=
  C9_frame [(1, 10)] 2 1 20 (by decide)

/-- C10: every view returned by `keys()`/`values()`/`items()` and every lazy
sequence returned by an `__iter__` call is registered with the
`keep_alive<0, 1>` policy, the lifetime-extension tie from the returned
object to its map. -/
theorem C10_keep_alive_tie :
    ∀ b ∈ bind_map_bindings,
      b.name = "keys" ∨ b.name = "values" ∨ b.name = "items" ∨
        b.name = "__iter__" →
      CallPolicy.keep_alive 0 1 ∈ b.policies := by
  decide

theorem C10_keep_alive_tie_witness :
    CallPolicy.keep_alive 0 1 ∈
      (Binding.mk "Map" "keys" [CallPolicy.keep_alive 0 1]).policies :=
  C10_keep_alive_tie ⟨"Map", "keys", [CallPolicy.keep_alive 0 1]⟩
    (by decide) (Or.inl rfl)

/-- C2: after `__setitem__` on a well-formed map, `__getitem__` returns the
stored value, `__contains__` is true, and the length grows by exactly 1 when
the key was absent and is unchanged when it was present — under both the
assign-in-place and the erase-and-reconstruct strategy. -/
theorem C2_setitem_spec (m : List (K × V)) (k : K) (v : V) (hwf : WF m) :
    map_getitem (map_setitem_assign m k v) k = Except.ok v ∧
    map_contains (map_setitem_assign m k v) (PyValue.key k) = true ∧
    map_len (map_setitem_assign m k v) =
      (if containsKey m k then map_len m else map_len m + 1) ∧
    map_getitem (map_setitem_emplace m k v) k = Except.ok v ∧
    map_contains (map_setitem_emplace m k v) (PyValue.key k) = true ∧
    map_len (map_setitem_emplace m k v) =
      (if containsKey m k then map_len m else map_len m + 1) := by
  refine ⟨?_, ?_, ?_, ?_, ?_, ?_⟩
  · unfold map_getitem map_setitem_assign
    rw [findEntry_assign_self]
  · show containsKey (map_setitem_assign m k v) k = true
    unfold containsKey map_setitem_assign
    rw [findEntry_assign_self]
    rfl
  · exact length_assign m k v
  · unfold map_getitem
    rw [findEntry_setitem_emplace_self m k v hwf]
  · show containsKey (map_setitem_emplace m k v) k = true
    unfold containsKey
    rw [findEntry_setitem_emplace_self m k v hwf]
    rfl
  · exact len_setitem_emplace m k v hwf

theorem C2_setitem_spec_witness :
    map_getitem (map_setitem_assign [((1 : Nat), (10 : Nat))] 1 20) 1 =
      Except.ok 20 ∧
    map_contains (map_setitem_assign [((1 : Nat), (10 : Nat))] 1 20)
      (PyValue.key 1) = true ∧
    map_len (map_setitem_assign [((1 : Nat), (10 : Nat))] 1 20) =
      (if containsKey [((1 : Nat), (10 : Nat))] 1 then map_len [((1 : Nat), (10 : Nat))]
       else map_len [((1 : Nat), (10 : Nat))] + 1) ∧
    map_getitem (map_setitem_emplace [((1 : Nat), (10 : Nat))] 1 20) 1 =
      Except.ok 20 ∧
    map_contains (map_setitem_emplace [((1 : Nat), (10 : Nat))] 1 20)
      (PyValue.key 1) = true ∧
    map_len (map_setitem_emplace [((1 : Nat), (10 : Nat))] 1 20) =
      (if containsKey [((1 : Nat), (10 : Nat))] 1 then map_len [((1 : Nat), (10 : Nat))]
       else map_len [((1 : Nat), (10 : Nat))] + 1) :=
  C2_setitem_spec [(1, 10)] 1 20 (by decide)

/-- C4: with a value type that only supports reconstruction, two
`__setitem__` calls on the same key leave exactly one entry for that key,
holding the second value; the length is unchanged between the calls; and
the second call indeed goes through the erase-then-reconstruct path (erase
the existing entry, then emplace the new one). -/
theorem C4_setitem_twice_reconstruct (m : List (K × V)) (k : K) (v₁ v₂ : V)
    (hwf : WF m) :
    map_setitem_emplace (map_setitem_emplace m k v₁) k v₂ =
      eraseKey (map_setitem_emplace m k v₁) k ++ [(k, v₂)] ∧
    (map_setitem_emplace (map_setitem_emplace m k v₁) k v₂).countP
      (fun p => decide (p.1 = k)) = 1 ∧
    findEntry (map_setitem_emplace (map_setitem_emplace m k v₁) k v₂) k =
      some v₂ ∧
    map_len (map_setitem_emplace (map_setitem_emplace m k v₁) k v₂) =
      map_len (map_setitem_emplace m k v₁) := by
  have hwf₁ : WF (map_setitem_emplace m k v₁) := WF_setitem_emplace m k v₁ hwf
  have hc₁ : containsKey (map_setitem_emplace m k v₁) k = true := by
    unfold containsKey
    rw [findEntry_setitem_emplace_self m k v₁ hwf]
    rfl
  have heq : map_setitem_emplace (map_setitem_emplace m k v₁) k v₂ =
      eraseKey (map_setitem_emplace m k v₁) k ++ [(k, v₂)] := by
    rw [setitem_emplace_eq _ k v₂ hwf₁, if_pos hc₁]
  refine ⟨heq, ?_, ?_, ?_⟩
  · rw [heq, List.countP_append,
      countP_keys_zero _ k (findEntry_eraseKey_self _ k hwf₁)]
    simp
  · rw [findEntry_setitem_emplace_self _ k v₂ hwf₁]
  · show (map_setitem_emplace (map_setitem_emplace m k v₁) k v₂).length =
      (map_setitem_emplace m k v₁).length
    rw [len_setitem_emplace _ k v₂ hwf₁, if_pos hc₁]

theorem C4_setitem_twice_reconstruct_witness :
    map_setitem_emplace (map_setitem_emplace [((1 : Nat), (10 : Nat))] 2 20) 2 30 =
      eraseKey (map_setitem_emplace [((1 : Nat), (10 : Nat))] 2 20) 2 ++ [(2, 30)] ∧
    (map_setitem_emplace (map_setitem_emplace [((1 : Nat), (10 : Nat))] 2 20) 2 30).countP
      (fun p => decide (p.1 = 2)) = 1 ∧
    findEntry (map_setitem_emplace (map_setitem_emplace [((1 : Nat), (10 : Nat))] 2 20) 2 30) 2 =
      some 30 ∧
    map_len (map_setitem_emplace (map_setitem_emplace [((1 : Nat), (10 : Nat))] 2 20) 2 30) =
      map_len (map_setitem_emplace [((1 : Nat), (10 : Nat))] 2 20) :=
  C4_setitem_twice_reconstruct [(1, 10)] 2 20 30 (by decide)

/-- C5: deleting a present key makes `__contains__` false for it and
decreases the length by exactly 1. -/
theorem C5_delete_present (m : List (K × V)) (k : K) (hwf : WF m)
    (hpres : containsKey m k = true) :
    map_contains (map_delitem m k).2 (PyValue.key k) = false ∧
    map_len (map_delitem m k).2 + 1 = map_len m := by
  have hfind : ∃ v, findEntry m k = some v := by
    unfold containsKey at hpres
    cases h : findEntry m k
    · rw [h] at hpres
      simp at hpres
    · exact ⟨_, rfl⟩
  obtain ⟨v, hv⟩ := hfind
  have hsnd : (map_delitem m k).2 = eraseKey m k := by
    unfold map_delitem
    rw [hv]
  constructor
  · show containsKey (map_delitem m k).2 k = false
    rw [hsnd]
    exact containsKey_eraseKey_self m k hwf
  · show (map_delitem m k).2.length + 1 = m.length
    rw [hsnd]
    exact length_eraseKey m k hpres

theorem C5_delete_present_witness :
    map_contains (map_delitem [((1 : Nat), (10 : Nat)), (2, 20)] 1).2
      (PyValue.key 1) = false ∧
    map_len (map_delitem [((1 : Nat), (10 : Nat)), (2, 20)] 1).2 + 1 =
      map_len [((1 : Nat), (10 : Nat)), (2, 20)] :=
  C5_delete_present [(1, 10), (2, 20)] 1 (by decide) (by decide)

/-- C6: in every reachable map state with `n` entries, iterating the key
view (and the map itself, whose `__iter__` is the same key sequence) yields
exactly `n` pairwise-distinct keys in native order, and the key sequence
read off the item view equals the key-view sequence element for element. -/
theorem C6_iteration_agreement (m : List (K × V)) (h : Reachable m) :
    (keyview_seq m).Nodup ∧
    (keyview_seq m).length = map_len m ∧
    (itemview_seq m).map Prod.fst = keyview_seq m ∧
    map_iter_keys m = keyview_seq m :=
  ⟨reachable_WF m h, by simp [keyview_seq, map_len], rfl, rfl⟩

theorem C6_iteration_agreement_witness :
    (keyview_seq [((1 : Nat), (10 : Nat))]).Nodup ∧
    (keyview_seq [((1 : Nat), (10 : Nat))]).length =
      map_len [((1 : Nat), (10 : Nat))] ∧
    (itemview_seq [((1 : Nat), (10 : Nat))]).map Prod.fst =
      keyview_seq [((1 : Nat), (10 : Nat))] ∧
    map_iter_keys [((1 : Nat), (10 : Nat))] =
      keyview_seq [((1 : Nat), (10 : Nat))] :=
  C6_iteration_agreement [(1, 10)]
    (Reachable.set_assign [] 1 10 Reachable.init)

/-- C8: views are live references, not snapshots.  With a key absent from
map object `i`, performing `__setitem__` on the map after the views were
created: every subsequent `__iter__` call on the key/value/item views
dereferences the map's current state; every `__len__` call now reports one
more entry than before the mutation; each view's iteration output differs
from what it was before the mutation; and a further `__delitem__` moves the
views' `__len__` back down — the views track the map at call time, not at
creation time. -/
theorem C8_views_live (σ : Store K V) (i : Nat) (k : K) (v : V)
    (habs : findEntry (σ i) k = none) :
    keyview_iter (store_setitem_assign σ i k v) (map_keys_view i) =
      keyview_seq (map_setitem_assign (σ i) k v) ∧
    valueview_iter (store_setitem_assign σ i k v) (map_values_view i) =
      valueview_seq (map_setitem_assign (σ i) k v) ∧
    itemview_iter (store_setitem_assign σ i k v) (map_items_view i) =
      itemview_seq (map_setitem_assign (σ i) k v) ∧
    keyview_len (store_setitem_assign σ i k v) (map_keys_view i) =
      keyview_len σ (map_keys_view i) + 1 ∧
    valueview_len (store_setitem_assign σ i k v) (map_values_view i) =
      valueview_len σ (map_values_view i) + 1 ∧
    itemview_len (store_setitem_assign σ i k v) (map_items_view i) =
      itemview_len σ (map_items_view i) + 1 ∧
    keyview_iter (store_setitem_assign σ i k v) (map_keys_view i) ≠
      keyview_iter σ (map_keys_view i) ∧
    valueview_iter (store_setitem_assign σ i k v) (map_values_view i) ≠
      valueview_iter σ (map_values_view i) ∧
    itemview_iter (store_setitem_assign σ i k v) (map_items_view i) ≠
      itemview_iter σ (map_items_view i) ∧
    keyview_len (store_delitem (store_setitem_assign σ i k v) i k)
      (map_keys_view i) = keyview_len σ (map_keys_view i) := by
  have hcf : containsKey (σ i) k = false :=
    (containsKey_eq_false_iff (σ i) k).mpr habs
  have hstate : store_setitem_assign σ i k v i = map_setitem_assign (σ i) k v := by
    simp [store_setitem_assign]
  have hlen : (store_setitem_assign σ i k v i).length = (σ i).length + 1 := by
    rw [hstate]
    show (assignEntry (σ i) k v).length = (σ i).length + 1
    simp [length_assign, hcf]
  have hpres : findEntry (store_setitem_assign σ i k v i) k = some v := by
    rw [hstate]
    exact findEntry_assign_self (σ i) k v
  have hcon : containsKey (store_setitem_assign σ i k v i) k = true := by
    unfold containsKey
    rw [hpres]
    rfl
  refine ⟨?_, ?_, ?_, ?_, ?_, ?_, ?_, ?_, ?_, ?_⟩
  · show keyview_seq (store_setitem_assign σ i k v i) = _
    rw [hstate]
  · show valueview_seq (store_setitem_assign σ i k v i) = _
    rw [hstate]
  · show itemview_seq (store_setitem_assign σ i k v i) = _
    rw [hstate]
  · show (store_setitem_assign σ i k v i).length = (σ i).length + 1
    exact hlen
  · show (store_setitem_assign σ i k v i).length = (σ i).length + 1
    exact hlen
  · show (store_setitem_assign σ i k v i).length = (σ i).length + 1
    exact hlen
  · intro he
    have hl := congrArg List.length he
    simp only [keyview_iter, keyview_seq, map_keys_view, List.length_map] at hl
    rw [hlen] at hl
    omega
  · intro he
    have hl := congrArg List.length he
    simp only [valueview_iter, valueview_seq, map_values_view, List.length_map] at hl
    rw [hlen] at hl
    omega
  · intro he
    have hl := congrArg List.length he
    simp only [itemview_iter, itemview_seq, map_items_view] at hl
    rw [hlen] at hl
    omega
  · show map_len (store_delitem (store_setitem_assign σ i k v) i k i) = map_len (σ i)
    have hdl : store_delitem (store_setitem_assign σ i k v) i k i =
        eraseKey (store_setitem_assign σ i k v i) k := by
      simp only [store_delitem, if_pos rfl]
      unfold map_delitem
      rw [hpres]
      simp
    rw [hdl]
    show (eraseKey (store_setitem_assign σ i k v i) k).length = (σ i).length
    have := length_eraseKey (store_setitem_assign σ i k v i) k hcon
    rw [hlen] at this
    omega

theorem C8_views_live_witness :
    keyview_iter (store_setitem_assign (fun _ => ([] : List (Nat × Nat))) 0 1 10)
      (map_keys_view 0) =
      keyview_seq (map_setitem_assign ((fun _ => ([] : List (Nat × Nat))) 0) 1 10) ∧
    valueview_iter (store_setitem_assign (fun _ => ([] : List (Nat × Nat))) 0 1 10)
      (map_values_view 0) =
      valueview_seq (map_setitem_assign ((fun _ => ([] : List (Nat × Nat))) 0) 1 10) ∧
    itemview_iter (store_setitem_assign (fun _ => ([] : List (Nat × Nat))) 0 1 10)
      (map_items_view 0) =
      itemview_seq (map_setitem_assign ((fun _ => ([] : List (Nat × Nat))) 0) 1 10) ∧
    keyview_len (store_setitem_assign (fun _ => ([] : List (Nat × Nat))) 0 1 10)
      (map_keys_view 0) =
      keyview_len (fun _ => ([] : List (Nat × Nat))) (map_keys_view 0) + 1 ∧
    valueview_len (store_setitem_assign (fun _ => ([] : List (Nat × Nat))) 0 1 10)
      (map_values_view 0) =
      valueview_len (fun _ => ([] : List (Nat × Nat))) (map_values_view 0) + 1 ∧
    itemview_len (store_setitem_assign (fun _ => ([] : List (Nat × Nat))) 0 1 10)
      (map_items_view 0) =
      itemview_len (fun _ => ([] : List (Nat × Nat))) (map_items_view 0) + 1 ∧
    keyview_iter (store_setitem_assign (fun _ => ([] : List (Nat × Nat))) 0 1 10)
      (map_keys_view 0) ≠
      keyview_iter (fun _ => ([] : List (Nat × Nat))) (map_keys_view 0) ∧
    valueview_iter (store_setitem_assign (fun _ => ([] : List (Nat × Nat))) 0 1 10)
      (map_values_view 0) ≠
      valueview_iter (fun _ => ([] : List (Nat × Nat))) (map_values_view 0) ∧
    itemview_iter (store_setitem_assign (fun _ => ([] : List (Nat × Nat))) 0 1 10)
      (map_items_view 0) ≠
      itemview_iter (fun _ => ([] : List (Nat × Nat))) (map_items_view 0) ∧
    keyview_len
      (store_delitem (store_setitem_assign (fun _ => ([] : List (Nat × Nat))) 0 1 10) 0 1)
      (map_keys_view 0) =
      keyview_len (fun _ => ([] : List (Nat × Nat))) (map_keys_view 0) :=
  C8_views_live (fun _ => ([] : List (Nat × Nat))) 0 1 10 rfl

end BindMap
